import Mathlib

/-!
Verification of the opensc-explorer shell (src/src/tools/opensc-explorer.c).

The definitions below are a shallow embedding of the C source.  Byte values
are `Nat` (always < 256 where the C type is `u8`), C strings are `List Char`
(the terminating NUL is the end of the list), and the external Card
Interface (libopensc) is an oracle structure whose behaviour the theorems
quantify over.  A C function that can fail returns `Option`/`Int` codes or a
dedicated outcome inductive mirroring the distinct `printf` exits of the
source.
-/

namespace OpenSCExplorer

/-- ASCII `isxdigit` from ctype.h, as used by `hex2binary`. -/
def isHexDigitB (c : Char) : Bool :=
  (48 ≤ c.toNat && c.toNat ≤ 57) || (97 ≤ c.toNat && c.toNat ≤ 102) ||
    (65 ≤ c.toNat && c.toNat ≤ 70)

/-- Value of a hex digit: the three-way branch of `hex2binary`
(`'0'..'9'`, `'a'..'f'`, else `'A'..'F'`). -/
def hexVal (c : Char) : Nat :=
  if 48 ≤ c.toNat ∧ c.toNat ≤ 57 then c.toNat - 48
  else if 97 ≤ c.toNat ∧ c.toNat ≤ 102 then c.toNat - 87
  else c.toNat - 55

/-- ASCII `tolower` in the C locale, as performed by `strncasecmp`. -/
def asciiLower (c : Char) : Char :=
  if 65 ≤ c.toNat ∧ c.toNat ≤ 90 then Char.ofNat (c.toNat + 32) else c

/-- ASCII `isspace`: space and the five control whitespace characters. -/
def isSpaceB (c : Char) : Bool :=
  c.toNat = 32 || (9 ≤ c.toNat && c.toNat ≤ 13)

/-- ASCII `isdigit`. -/
def isDigitB (c : Char) : Bool :=
  48 ≤ c.toNat && c.toNat ≤ 57

/-- `strncasecmp(a, b, n) == 0`.  The end of a list is the string's NUL:
two exhausted strings compare equal, an exhausted string differs from a
remaining character. -/
def strncasecmp0 : List Char → List Char → Nat → Bool
  | _, _, 0 => true
  | [], [], _ + 1 => true
  | [], _ :: _, _ + 1 => false
  | _ :: _, [], _ + 1 => false
  | c :: cs, d :: ds, n + 1 =>
      (asciiLower c == asciiLower d) && strncasecmp0 cs ds n

/-- Loop state of `hex2binary`: `len` is the remaining output capacity,
`s = some hi` means a high nibble `hi` is pending (C flag `s == 1`, with
`*out` holding `hi`), `acc` the bytes committed so far.  The loop condition
`inlen && (len || s)` is checked before each character; a pending nibble at
the end of the input is the odd-digit-count error (C returns 0). -/
def hexStep : Nat → Option Nat → List Nat → List Char → Option (List Nat)
  | _, s, acc, [] => if s.isSome then none else some acc
  | len, s, acc, c :: rest =>
      if len = 0 ∧ s = none then some acc
      else if isHexDigitB c = false then hexStep len s acc rest
      else
        match s with
        | none => hexStep (len - 1) (some (hexVal c)) acc rest
        | some hi => hexStep len none (acc ++ [hi * 16 + hexVal c]) rest

/-- `hex2binary(out, outlen, in)`: returns the decoded bytes, or `none` for
the odd-digit-count error (the C function then returns 0). -/
def hex2binary (outlen : Nat) (input : List Char) : Option (List Nat) :=
  hexStep outlen none [] input

/-- The C return value of `hex2binary`: the number of bytes written, with 0
doubling as the error signal. -/
def hex2binaryRet (outlen : Nat) (input : List Char) : Nat :=
  match hex2binary outlen input with
  | none => 0
  | some bs => bs.length

/-- Modelled from the spec: `sc_hex_to_bin` (libopensc, outside `src/`).
The spec describes unquoted PIN/key values as "strict even-length hex"
(example form `31:32:33:34`): pairs of hex digits, optionally separated by
`:`, anything else failing, and failing when the output overruns the
caller's buffer of size `cap`. -/
def sc_hex_to_bin (cap : Nat) : List Char → Option (List Nat)
  | [] => some []
  | [_] => none
  | c1 :: c2 :: rest =>
      if isHexDigitB c1 ∧ isHexDigitB c2 then
        if cap = 0 then none
        else
          match rest with
          | [] => some [hexVal c1 * 16 + hexVal c2]
          | ':' :: rest2 =>
              (sc_hex_to_bin (cap - 1) rest2).map (fun bs =>
                (hexVal c1 * 16 + hexVal c2) :: bs)
          | _ => none
      else none

/-- Digits-to-number accumulation used to model `sscanf`'s `%d`. -/
def natFromDigits (l : List Char) : Nat :=
  l.foldl (fun a c => a * 10 + (c.toNat - 48)) 0

/-- `sscanf(s, "%d", &r) == 1` with the parsed value: skip whitespace, an
optional sign, then at least one decimal digit; trailing characters are
ignored. -/
def sscanf_d (s : List Char) : Option Int :=
  match s.dropWhile isSpaceB with
  | '-' :: rest =>
      match rest with
      | c :: _ =>
          if isDigitB c then some (-(natFromDigits (rest.takeWhile isDigitB) : Int))
          else none
      | [] => none
  | '+' :: rest =>
      match rest with
      | c :: _ =>
          if isDigitB c then some ((natFromDigits (rest.takeWhile isDigitB) : Int))
          else none
      | [] => none
  | c :: rest =>
      if isDigitB c then
        some ((natFromDigits ((c :: rest).takeWhile isDigitB) : Int))
      else none
  | [] => none

/-- One `%02X` conversion of `sscanf`: skip whitespace, then one or two hex
digits, returning the value and the rest of the string. -/
def scanHex2 (s : List Char) : Option (Nat × List Char) :=
  match s.dropWhile isSpaceB with
  | c1 :: rest =>
      if isHexDigitB c1 then
        match rest with
        | c2 :: rest2 =>
            if isHexDigitB c2 then some (hexVal c1 * 16 + hexVal c2, rest2)
            else some (hexVal c1, rest)
        | [] => some (hexVal c1, [])
      else none
  | [] => none

/-- `sscanf(arg, "%02X%02X", &buf[0], &buf[1]) == 2` with the two values. -/
def sscanf02X02X (s : List Char) : Option (Nat × Nat) :=
  match scanHex2 s with
  | none => none
  | some (b0, rest) =>
      match scanHex2 rest with
      | none => none
      | some (b1, _) => some (b0, b1)

/-- `sc_path_t.type`: `SC_PATH_TYPE_FILE_ID` (0), `SC_PATH_TYPE_DF_NAME`
(1), `SC_PATH_TYPE_PATH` (2) from the repository's headers. -/
inductive PType where
  | fileId
  | dfName
  | path
deriving DecidableEq

/-- `sc_path_t`: `value`/`len` as one list, plus the `aid` field filled by
`arg_to_path` when resolving relative to a DF-name path. -/
structure ScPath where
  ptype : PType
  value : List Nat
  aid : List Nat
deriving DecidableEq

/-- `SC_FILE_TYPE_WORKING_EF` / `SC_FILE_TYPE_INTERNAL_EF` /
`SC_FILE_TYPE_DF`, plus the default of the C switch. -/
inductive FileType where
  | workingEF
  | internalEF
  | df
  | other
deriving DecidableEq

/-- `file->ef_structure` values used by the source. -/
inductive EfStruct where
  | transparent
  | linearFixed
  | linearVariable
  | cyclic
  | unknown
deriving DecidableEq

/-- The slice of `sc_file_t` the source reads. -/
structure ScFile where
  id : Nat
  ftype : FileType
  ef_structure : EfStruct
  size : Nat
  record_count : Nat
deriving DecidableEq

/-- Modelled from the spec: `sc_append_path_id` (libopensc, outside
`src/`) appends a 2-byte component to a path's value. -/
def sc_append_path_id (p : ScPath) (bs : List Nat) : ScPath :=
  { p with value := p.value ++ bs }

/-- Modelled from the spec: `sc_format_path("3F00", &path)` (libopensc,
outside `src/`) builds the well-known root path, a 2-byte absolute path. -/
def root3F00 : ScPath :=
  ⟨PType.path, [0x3F, 0x00], []⟩

/-- Modelled from the spec: `sc_path_set(&path, SC_PATH_TYPE_FILE_ID, id,
2, 0, 0)` (libopensc, outside `src/`) builds a bare file-id path. -/
def sc_path_set_fileId (bs : List Nat) : ScPath :=
  ⟨PType.fileId, bs, []⟩

/-- `arg_to_path(arg, &path, is_id)`: `none` is the C `-1` failure.
The `aid:` prefix test is `strncasecmp(arg, "aid:", 4)`; the aid branch
stores whatever count `hex2binary` returned (0 on its error) and always
succeeds.  A non-prefixed token must be 4 characters and scan as
`%02X%02X`; `3F00` or raw-id mode give an absolute path, anything else is
appended to `current` (first converting a DF-name current path into an
aid-prefixed empty file-id path, failing if its value exceeds the 16-byte
aid buffer). -/
def arg_to_path (arg : List Char) (current : ScPath) (is_id : Bool) :
    Option ScPath :=
  if strncasecmp0 arg ('a' :: 'i' :: 'd' :: ':' :: []) 4 then
    some ⟨PType.dfName, (hex2binary 16 (arg.drop 4)).getD [], []⟩
  else
    if arg.length ≠ 4 then none
    else
      match sscanf02X02X arg with
      | none => none
      | some (b0, b1) =>
          if (b0 = 0x3F ∧ b1 = 0x00) ∨ is_id then
            some ⟨if is_id then PType.fileId else PType.path, [b0, b1], []⟩
          else
            if current.ptype = PType.dfName then
              if current.value.length > 16 then none
              else some (sc_append_path_id ⟨PType.fileId, [], current.value⟩ [b0, b1])
            else some (sc_append_path_id current [b0, b1])

/-- The external Card Interface (libopensc), out of scope per the spec, as
an oracle: `listReply` is the byte stream `sc_list_files` fills (`none` =
negative return), `selectFile` the outcome of `sc_select_file` (`none` =
negative return, `some f` = success with the selected file's attributes),
`readBinary idx len` the `int` return of `sc_read_binary`, and `belpic`
whether `card->type == SC_CARD_TYPE_BELPIC_EID`.  A successful select makes
the selected path the card's current selection; a failed one leaves the
selection unchanged. -/
structure Card where
  listReply : Option (List Nat)
  selectFile : ScPath → Option ScFile
  readBinary : Nat → Nat → Int
  belpic : Bool

/-- The shell's globals `current_path` and `current_file`, together with
the card's currently selected file (`none` before any selection, as after
starting with an empty `-m` path). -/
structure ShellState where
  current_path : ScPath
  current_file : Option ScFile
  selected : Option ScPath
deriving DecidableEq

/-- The C truth test `current_path.type || current_path.len` of
`select_current_path_or_die`; `SC_PATH_TYPE_FILE_ID` is 0 in the
repository's headers, so it reads: type is not FILE_ID or len is not 0. -/
def scpNonzero (p : ScPath) : Bool :=
  p.ptype ≠ PType.fileId || p.value.length ≠ 0

/-- Result of `select_current_path_or_die`: the re-selection happened (or
was skipped for an all-zero current path), or the process died. -/
inductive SelOrDie where
  | ok (sel : Option ScPath)
  | died
deriving DecidableEq

/-- `select_current_path_or_die()`: re-select `current_path` unless it is
the all-zero path; on select failure the process exits. -/
def select_current_path_or_die (card : Card) (st : ShellState) : SelOrDie :=
  if scpNonzero st.current_path then
    match card.selectFile st.current_path with
    | some _ => SelOrDie.ok (some st.current_path)
    | none => SelOrDie.died
  else SelOrDie.ok st.selected

/-- Outcome of a directory-command handler: the `int` return paired with
the final shell state, or process death inside
`select_current_path_or_die`. -/
inductive LsOut where
  | died
  | ret (r : Int) (st : ShellState)
deriving DecidableEq

/-- The `while (count >= 2)` loop of `do_ls`: build the child path (append
to `current_path`, or a bare file-id path when the current path is a
DF name), select it (showing the file on success), then re-select the
current path or die.  Returns the final card selection, `none` = died. -/
def lsLoop (card : Card) (st : ShellState) : List Nat → Option (Option ScPath)
  | b0 :: b1 :: rest =>
      let path :=
        if st.current_path.ptype ≠ PType.dfName then
          sc_append_path_id st.current_path [b0, b1]
        else sc_path_set_fileId [b0, b1]
      let sel1 :=
        match card.selectFile path with
        | some _ => some path
        | none => st.selected
      match select_current_path_or_die card { st with selected := sel1 } with
      | SelOrDie.died => none
      | SelOrDie.ok sel2 => lsLoop card { st with selected := sel2 } rest
  | _ => some st.selected

/-- `do_ls(argc, argv)`: usage error on any argument, `-1` when
`sc_list_files` fails, else the listing loop. -/
def do_ls (card : Card) (args : List (List Char)) (st : ShellState) : LsOut :=
  if args.length ≠ 0 then LsOut.ret (-1) st
  else
    match card.listReply with
    | none => LsOut.ret (-1) st
    | some buf =>
        match lsLoop card st buf with
        | none => LsOut.died
        | some sel2 => LsOut.ret 0 { st with selected := sel2 }

/-- Outcome of `do_cd`, one constructor per distinct exit of the C
function (each `printf`+`return -1` path, the success path, and death in
`select_current_path_or_die`). -/
inductive CdOut where
  | usage (st : ShellState)
  | alreadyAtRoot (st : ShellState)
  | selectErr (st : ShellState)
  | notDF (st : ShellState)
  | ok (st : ShellState)
  | died
deriving DecidableEq

/-- `do_cd(argc, argv)`.  For `".."`: below 4 path bytes it cannot ascend;
a DF-name current path ascends to the root `3F00`; otherwise the trailing
2-byte component is cut; the shortened path is selected and, on success,
`current_path`/`current_file` replaced.  For any other token the resolved
path must select to a DF (except on BELPIC cards), else the current path
is re-selected and the command fails. -/
def do_cd (card : Card) (args : List (List Char)) (st : ShellState) : CdOut :=
  match args with
  | [arg] =>
      if arg = ('.' :: '.' :: []) then
        if st.current_path.value.length < 4 then CdOut.alreadyAtRoot st
        else
          let path :=
            if st.current_path.ptype = PType.dfName then root3F00
            else { st.current_path with
                     value := st.current_path.value.take
                       (st.current_path.value.length - 2) }
          match card.selectFile path with
          | none => CdOut.selectErr st
          | some f =>
              CdOut.ok { current_path := path, current_file := some f,
                         selected := some path }
      else
        match arg_to_path arg st.current_path false with
        | none => CdOut.usage st
        | some path =>
            match card.selectFile path with
            | none => CdOut.selectErr st
            | some f =>
                if f.ftype ≠ FileType.df ∧ card.belpic = false then
                  match select_current_path_or_die card
                      { st with selected := some path } with
                  | SelOrDie.died => CdOut.died
                  | SelOrDie.ok sel2 => CdOut.notDF { st with selected := sel2 }
                else
                  CdOut.ok { current_path := path, current_file := some f,
                             selected := some path }
  | _ => CdOut.usage st

/-- One `sc_read_binary` interaction of the transparent-read loop: the
byte offset, the requested length and the card's `int` response. -/
structure RBCall where
  idx : Nat
  req : Nat
  resp : Int
deriving DecidableEq

/-- Outcome of the transparent-read loop: negative card return, a short
response on a non-BELPIC card, or success carrying the total byte count
received. -/
inductive RBOut where
  | err
  | shortErr
  | ok (total : Nat)
deriving DecidableEq

/-- The `while (count)` loop shared by `read_and_util_print_binary_file`
and `do_get` (`u8 buf[bufsize1 + 1]`): request `min(count, sizeof buf)`
bytes at `idx`; a negative return fails; a response different from the
request fails unless the card is a BELPIC; a zero-length response on a
BELPIC ends the read; otherwise advance.  Also records each card call. -/
def rpb_loop (card : Card) (bufsize1 : Nat) (idx : Nat) :
    (count : Nat) → List RBCall × RBOut
  | 0 => ([], RBOut.ok idx)
  | cnt + 1 =>
      let c := min (cnt + 1) (bufsize1 + 1)
      let r := card.readBinary idx c
      if r < 0 then ([⟨idx, c, r⟩], RBOut.err)
      else if h2 : r.toNat ≠ c ∧ card.belpic = false then
        ([⟨idx, c, r⟩], RBOut.shortErr)
      else if h3 : r.toNat = 0 ∧ card.belpic = true then
        ([⟨idx, c, r⟩], RBOut.ok idx)
      else
        let res := rpb_loop card bufsize1 (idx + r.toNat) (cnt + 1 - r.toNat)
        (⟨idx, c, r⟩ :: res.1, res.2)
  termination_by count => count
  decreasing_by
    have h1 : 1 ≤ min (cnt + 1) (bufsize1 + 1) :=
      Nat.le_min.mpr ⟨Nat.succ_le_succ (Nat.zero_le _),
        Nat.succ_le_succ (Nat.zero_le _)⟩
    rcases Bool.eq_false_or_eq_true card.belpic with hb | hb
    · have h3' : (card.readBinary idx
          (min (cnt + 1) (bufsize1 + 1))).toNat ≠ 0 := fun h0 => h3 ⟨h0, hb⟩
      omega
    · have h2' : (card.readBinary idx
          (min (cnt + 1) (bufsize1 + 1))).toNat = min (cnt + 1) (bufsize1 + 1) := by
        by_contra hne
        exact h2 ⟨hne, hb⟩
      omega

/-- `read_and_util_print_binary_file(file)` (`u8 buf[128]`), run from
offset 0 for the file's declared size. -/
def read_and_util_print_binary_file (card : Card) (file : ScFile) :
    List RBCall × RBOut :=
  rpb_loop card 127 0 file.size

/-- The identical read loop of `do_get` (`u8 buf[256]`). -/
def do_get_read_loop (card : Card) (file : ScFile) : List RBCall × RBOut :=
  rpb_loop card 255 0 file.size

/-- `%02X`: two uppercase hex digits. -/
def hexDigitChar (n : Nat) : Char :=
  if n < 10 then Char.ofNat (48 + n) else Char.ofNat (55 + n)

/-- `sprintf("%02X", b)` for a `u8`. -/
def hexByte (b : Nat) : List Char :=
  [hexDigitChar (b / 16 % 16), hexDigitChar (b % 16)]

/-- The filename-building loop of `do_get`: `while (2*i < path.len)`
append `sprintf("%02X%02X_", value[2i], value[2i+1])`; a byte read past
the stored length is 0 (the `sc_path_t` buffer is zeroed). -/
def get_name_loop : List Nat → List Char → List Char
  | b0 :: b1 :: rest, acc =>
      get_name_loop rest (acc ++ hexByte b0 ++ hexByte b1 ++ ['_'])
  | [b0], acc => acc ++ hexByte b0 ++ hexByte 0 ++ ['_']
  | [], acc => acc

/-- `do_get`'s default local filename: all byte pairs, with the final
`'_'` overwritten by the terminating NUL (`fbuf[5*i-1] = 0`). -/
def do_get_default_filename (p : ScPath) : List Char :=
  (get_name_loop p.value []).dropLast

/-- `do_put`'s default local filename:
`sprintf(buf, "%02X%02X", path.value[0], path.value[1])`. -/
def do_put_default_filename (p : ScPath) : List Char :=
  hexByte (p.value.getD 0 0) ++ hexByte (p.value.getD 1 0)

/-- `SC_AC_CHV` / `SC_AC_AUT` / `SC_AC_PRO` / `SC_AC_NONE`. -/
inductive ScAC where
  | chv
  | aut
  | pro
  | acNone
deriving DecidableEq

/-- The `typeNames` table of `do_verify`: `KEY` and `AUT` both map to
`SC_AC_AUT`. -/
def typeNames : List (List Char × ScAC) :=
  [(['C', 'H', 'V'], ScAC.chv), (['K', 'E', 'Y'], ScAC.aut),
   (['A', 'U', 'T'], ScAC.aut), (['P', 'R', 'O'], ScAC.pro)]

/-- The type-lookup loop of `do_verify`: first table entry with
`strncasecmp(argv[0], name, 3) == 0`, else `SC_AC_NONE`. -/
def lookupType : List (List Char × ScAC) → List Char → ScAC
  | [], _ => ScAC.acNone
  | (nm, t) :: rest, arg0 =>
      if strncasecmp0 arg0 nm 3 then t else lookupType rest arg0

/-- `do_verify`'s credential-token parse: type from the table, then
`sscanf(argv[0] + 3, "%d", &ref)`; `none` is the usage-error exit. -/
def parse_type_ref_verify (arg0 : List Char) : Option (ScAC × Int) :=
  match lookupType typeNames arg0 with
  | ScAC.acNone => none
  | t => (sscanf_d (arg0.drop 3)).map (fun r => (t, r))

/-- The credential-token parse of `do_change` and `do_unblock`: only
`strncasecmp(argv[0], "CHV", 3) == 0` is accepted, then
`sscanf(argv[0] + 3, "%d", &ref)`. -/
def parse_type_ref_chv (arg0 : List Char) : Option Int :=
  if strncasecmp0 arg0 ('C' :: 'H' :: 'V' :: []) 3 then
    sscanf_d (arg0.drop 3)
  else none

/-- A PIN-value token as read by `do_change`/`do_unblock` into a buffer of
`cap` bytes: a token starting with `"` copies raw characters up to the
closing quote, the token's end, or the buffer size (never failing);
anything else goes through `sc_hex_to_bin` (`none` = "Invalid key
value"). -/
def parsePinValue (cap : Nat) (tok : List Char) : Option (List Nat) :=
  match tok with
  | '"' :: rest =>
      some (((rest.takeWhile (fun c => c ≠ '"')).take cap).map Char.toNat)
  | _ => sc_hex_to_bin cap tok

/-- The `sc_change_reference_data` call as issued by `do_change`: a PIN
argument is `none` exactly when the C call passes a NULL pointer with
length 0 (`oldpinlen ? oldpin : NULL`). -/
inductive ChangeOut where
  | usage
  | call (ref : Int) (oldpin : Option (List Nat)) (newpin : Option (List Nat))
deriving DecidableEq

/-- `do_change(argc, argv)` up to its single
`sc_change_reference_data(card, SC_AC_CHV, ref, oldpinlen ? oldpin : NULL,
oldpinlen, newpinlen ? newpin : NULL, newpinlen, ...)` call: zero value
arguments send NULL/NULL, one sends NULL plus the value, two send both;
either parsed value of length 0 degrades to a NULL pointer. -/
def do_change_parse (args : List (List Char)) : ChangeOut :=
  if args.length < 1 ∨ args.length > 3 then ChangeOut.usage
  else
    match args with
    | [] => ChangeOut.usage
    | arg0 :: rest =>
        match parse_type_ref_chv arg0 with
        | none => ChangeOut.usage
        | some ref =>
            match rest with
            | [] => ChangeOut.call ref none none
            | [a1] =>
                match parsePinValue 30 a1 with
                | none => ChangeOut.usage
                | some nb =>
                    ChangeOut.call ref none
                      (if nb.length = 0 then none else some nb)
            | [a1, a2] =>
                match parsePinValue 30 a1 with
                | none => ChangeOut.usage
                | some ob =>
                    match parsePinValue 30 a2 with
                    | none => ChangeOut.usage
                    | some nb =>
                        ChangeOut.call ref
                          (if ob.length = 0 then none else some ob)
                          (if nb.length = 0 then none else some nb)
            | _ => ChangeOut.usage

/-- The `sc_reset_retry_counter` call as issued by `do_unblock`: here a
PIN argument is `none` exactly when the C pointer is NULL, which happens
only for an *absent* argument — a present empty value keeps the buffer
pointer with length 0 (`puk = &puk_buf[0]`, `newpin = &newpin_buf[0]`). -/
inductive UnblockOut where
  | usage
  | call (ref : Int) (puk : Option (List Nat)) (newpin : Option (List Nat))
deriving DecidableEq

/-- `do_unblock(argc, argv)` up to its
`sc_reset_retry_counter(card, SC_AC_CHV, ref, puk, puklen, newpin,
newpinlen)` call. -/
def do_unblock_parse (args : List (List Char)) : UnblockOut :=
  if args.length < 1 ∨ args.length > 3 then UnblockOut.usage
  else
    match args with
    | [] => UnblockOut.usage
    | arg0 :: rest =>
        match parse_type_ref_chv arg0 with
        | none => UnblockOut.usage
        | some ref =>
            match rest with
            | [] => UnblockOut.call ref none none
            | a1 :: rest2 =>
                match parsePinValue 30 a1 with
                | none => UnblockOut.usage
                | some pukb =>
                    match rest2 with
                    | [] => UnblockOut.call ref (some pukb) none
                    | a2 :: _ =>
                        match parsePinValue 30 a2 with
                        | none => UnblockOut.usage
                        | some nb => UnblockOut.call ref (some pukb) (some nb)

/-- An entry of the static `cmds` table. -/
structure Command where
  name : List Char
  help : List Char
deriving DecidableEq

/-- The `cmds` table of the source, in order. -/
def cmds : List Command :=
  [⟨"ls".data, "list all files in the current DF".data⟩,
   ⟨"cd".data, "change to another DF".data⟩,
   ⟨"cat".data, "print the contents of an EF".data⟩,
   ⟨"info".data, "display attributes of card file".data⟩,
   ⟨"create".data, "create a new EF".data⟩,
   ⟨"delete".data, "remove an EF/DF".data⟩,
   ⟨"rm".data, "remove an EF/DF".data⟩,
   ⟨"verify".data, "present a PIN or key to the card".data⟩,
   ⟨"change".data, "change a PIN".data⟩,
   ⟨"unblock".data, "unblock a PIN".data⟩,
   ⟨"put".data, "copy a local file to the card".data⟩,
   ⟨"get".data, "copy an EF to a local file".data⟩,
   ⟨"do_get".data, "get a data object".data⟩,
   ⟨"do_put".data, "put a data object".data⟩,
   ⟨"mkdir".data, "create a DF".data⟩,
   ⟨"erase".data, "erase card".data⟩,
   ⟨"random".data, "obtain N random bytes from card".data⟩,
   ⟨"quit".data, "quit this program".data⟩,
   ⟨"exit".data, "quit this program".data⟩,
   ⟨"update_record".data, "update record".data⟩,
   ⟨"update_binary".data, "update binary".data⟩,
   ⟨"debug".data, "set the debug level".data⟩,
   ⟨"apdu".data, "send a custom apdu command".data⟩,
   ⟨"asn1".data, "decode an asn1 file".data⟩]

/-- The match test of `ambiguous_match`:
`strncasecmp(cmd, table->name, strlen(cmd)) == 0`. -/
def cmdMatch (cmd : List Char) (t : Command) : Bool :=
  strncasecmp0 cmd t.name cmd.length

/-- The loop body of `ambiguous_match`: track the last match and the
match count. -/
def ambStep (cmd : List Char) (st : Option Command × Nat) (t : Command) :
    Option Command × Nat :=
  if cmdMatch cmd t then (some t, st.2 + 1) else st

/-- Number of table entries the typed name matches as a prefix. -/
def matchCount (table : List Command) (cmd : List Char) : Nat :=
  (table.filter (cmdMatch cmd)).length

/-- `ambiguous_match(table, cmd)`: `NULL` (= `none`) both for no match and
for more than one match (the latter after printing the ambiguous-command
message). -/
def ambiguous_match (table : List Command) (cmd : List Char) :
    Option Command :=
  let st := table.foldl (ambStep cmd) (none, 0)
  if 1 < st.2 then none else st.1

/-- The dispatch step of `main`'s shell loop: an empty line is skipped,
a `NULL` from `ambiguous_match` prints the command list and dispatches
nothing, otherwise the matched command is invoked on the remaining
tokens. -/
def shell_dispatch (table : List Command) (argv : List (List Char)) :
    Option (Command × List (List Char)) :=
  match argv with
  | [] => none
  | c0 :: rest => (ambiguous_match table c0).map (fun t => (t, rest))


/-- Full behaviour of the `hex2binary` loop, for both loop states. -/
theorem hexStep_main (input : List Char) :
    (∀ (len : Nat) (acc : List Nat),
      ((input.filter isHexDigitB).length % 2 = 1 ∧
          (input.filter isHexDigitB).length / 2 < len →
        hexStep len none acc input = none) ∧
      (¬((input.filter isHexDigitB).length % 2 = 1 ∧
          (input.filter isHexDigitB).length / 2 < len) →
        ∃ out, hexStep len none acc input = some out ∧
          out.length = acc.length +
            min ((input.filter isHexDigitB).length / 2) len)) ∧
    (∀ (len : Nat) (acc : List Nat) (hi : Nat),
      ((input.filter isHexDigitB).length = 0 ∨
          (((input.filter isHexDigitB).length - 1) % 2 = 1 ∧
            ((input.filter isHexDigitB).length - 1) / 2 < len) →
        hexStep len (some hi) acc input = none) ∧
      (¬((input.filter isHexDigitB).length = 0 ∨
          (((input.filter isHexDigitB).length - 1) % 2 = 1 ∧
            ((input.filter isHexDigitB).length - 1) / 2 < len)) →
        ∃ out, hexStep len (some hi) acc input = some out ∧
          out.length = acc.length + 1 +
            min (((input.filter isHexDigitB).length - 1) / 2) len)) := by
  induction input with
  | nil =>
      refine ⟨fun len acc => ⟨fun h => ?_, fun h => ?_⟩,
              fun len acc hi => ⟨fun h => ?_, fun h => ?_⟩⟩
      · simp at h
      · exact ⟨acc, by simp [hexStep]⟩
      · simp [hexStep]
      · simp at h
  | cons c rest ih =>
      obtain ⟨ihN, ihS⟩ := ih
      rcases Bool.eq_false_or_eq_true (isHexDigitB c) with hc | hc
      · -- hex digit (this disjunct is `= true`)
        have hd : ((c :: rest).filter isHexDigitB).length =
            (rest.filter isHexDigitB).length + 1 := by
          simp [List.filter_cons, hc]
        refine ⟨fun len acc => ?_, fun len acc hi => ?_⟩
        · cases len with
          | zero =>
              refine ⟨fun h => ?_, fun h => ?_⟩
              · omega
              · exact ⟨acc, by simp [hexStep], by omega⟩
          | succ l =>
              have h0 := ihS l acc (hexVal c)
              refine ⟨fun h => ?_, fun h => ?_⟩
              · rw [hd] at h
                have hcond : (rest.filter isHexDigitB).length = 0 ∨
                    (((rest.filter isHexDigitB).length - 1) % 2 = 1 ∧
                      ((rest.filter isHexDigitB).length - 1) / 2 < l) := by
                  omega
                have h1 := h0.1 hcond
                simp [hexStep, hc, h1]
              · rw [hd] at h
                rw [hd]
                have hcond : ¬((rest.filter isHexDigitB).length = 0 ∨
                    (((rest.filter isHexDigitB).length - 1) % 2 = 1 ∧
                      ((rest.filter isHexDigitB).length - 1) / 2 < l)) := by
                  omega
                obtain ⟨out, h1, h2⟩ := h0.2 hcond
                refine ⟨out, by simp [hexStep, hc, h1], ?_⟩
                omega
        · have h0 := ihN len (acc ++ [hi * 16 + hexVal c])
          refine ⟨fun h => ?_, fun h => ?_⟩
          · rw [hd] at h
            have hcond : (rest.filter isHexDigitB).length % 2 = 1 ∧
                (rest.filter isHexDigitB).length / 2 < len := by
              omega
            have h1 := h0.1 hcond
            simp [hexStep, hc, h1]
          · rw [hd] at h
            rw [hd]
            have hcond : ¬((rest.filter isHexDigitB).length % 2 = 1 ∧
                (rest.filter isHexDigitB).length / 2 < len) := by
              omega
            obtain ⟨out, h1, h2⟩ := h0.2 hcond
            refine ⟨out, by simp [hexStep, hc, h1], ?_⟩
            simp at h2
            omega
      · -- non-hex character: skipped, digit count unchanged
        have hd : ((c :: rest).filter isHexDigitB).length =
            (rest.filter isHexDigitB).length := by
          simp [List.filter_cons, hc]
        refine ⟨fun len acc => ?_, fun len acc hi => ?_⟩
        · cases len with
          | zero =>
              refine ⟨fun h => ?_, fun h => ?_⟩
              · omega
              · exact ⟨acc, by simp [hexStep], by omega⟩
          | succ l =>
              have h0 := ihN (l + 1) acc
              refine ⟨fun h => ?_, fun h => ?_⟩
              · rw [hd] at h
                have h1 := h0.1 h
                simp [hexStep, hc, h1]
              · rw [hd] at h
                rw [hd]
                obtain ⟨out, h1, h2⟩ := h0.2 h
                exact ⟨out, by simp [hexStep, hc, h1], h2⟩
        · have h0 := ihS len acc hi
          refine ⟨fun h => ?_, fun h => ?_⟩
          · rw [hd] at h
            have h1 := h0.1 h
            simp [hexStep, hc, h1]
          · rw [hd] at h
            rw [hd]
            obtain ⟨out, h1, h2⟩ := h0.2 h
            exact ⟨out, by simp [hexStep, hc, h1], h2⟩



/-- C6 (amended): full characterization of `hex2binary` for any input and
any output capacity `max`: with `d` hex digits among the input, an odd `d`
with `d / 2 < max` is the even-count error; otherwise decoding succeeds
and yields `min (d / 2) max` bytes. -/
theorem hex2binary_spec (input : List Char) (max : Nat) :
    ((input.filter isHexDigitB).length % 2 = 1 ∧
        (input.filter isHexDigitB).length / 2 < max →
      hex2binary max input = none) ∧
    (¬((input.filter isHexDigitB).length % 2 = 1 ∧
        (input.filter isHexDigitB).length / 2 < max) →
      ∃ out, hex2binary max input = some out ∧
        out.length = min ((input.filter isHexDigitB).length / 2) max) := by
  have h := (hexStep_main input).1 max []
  simpa [hex2binary] using h

/-- Witness for `hex2binary_spec`, at `"AAB"` (odd digit count, error)
and `"AABB"` (two bytes) with capacity 2. -/
theorem hex2binary_spec_witness :
    hex2binary 2 ['A', 'A', 'B'] = none ∧
    ∃ out, hex2binary 2 ['A', 'A', 'B', 'B'] = some out ∧
      out.length =
        min ((['A', 'A', 'B', 'B'].filter isHexDigitB).length / 2) 2 :=
  ⟨(hex2binary_spec ['A', 'A', 'B'] 2).1 (by decide),
   (hex2binary_spec ['A', 'A', 'B', 'B'] 2).2 (by decide)⟩

/-- C6 counterexample: `"AABB"` holds 2·2 hex digits, yet with a
caller-specified maximum output length of 1 `hex2binary` returns a single
byte, not 2 — and not an error. -/
theorem hex2binary_truncation_counterexample :
    (['A', 'A', 'B', 'B'].filter isHexDigitB).length = 2 * 2 ∧
    hex2binary 1 ['A', 'A', 'B', 'B'] = some [170] ∧
    ¬∃ out, hex2binary 1 ['A', 'A', 'B', 'B'] = some out ∧ out.length = 2 := by
  refine ⟨by decide, by decide, ?_⟩
  rintro ⟨out, h1, h2⟩
  rw [show hex2binary 1 ['A', 'A', 'B', 'B'] = some [170] from by decide] at h1
  injection h1 with h1
  subst h1
  simp at h2

/-- C7 (amended): an `aid:`-prefixed token always resolves successfully to
a DF-name (AppId) path whose value is the hex decode of the remainder
capped at 16 bytes — a failed decode (odd digit count) yields a
zero-length AppId instead of an error. -/
theorem arg_to_path_aid_spec (p : List Char) (current : ScPath)
    (is_id : Bool) :
    arg_to_path ('a' :: 'i' :: 'd' :: ':' :: p) current is_id =
      some ⟨PType.dfName, (hex2binary 16 p).getD [], []⟩ := by
  simp [arg_to_path, strncasecmp0]

/-- C7 counterexample: the hex decode of `aid:AAB` fails (odd digit
count), yet `arg_to_path` succeeds, with an empty DF-name path, instead of
returning the error. -/
theorem arg_to_path_aid_counterexample :
    hex2binary 16 ['A', 'A', 'B'] = none ∧
    arg_to_path ('a' :: 'i' :: 'd' :: ':' :: 'A' :: 'A' :: 'B' :: [])
        root3F00 false =
      some ⟨PType.dfName, [], []⟩ := by decide

/-- C8 (amended): `do_verify` matches the credential token's first three
characters case-insensitively against `CHV`/`KEY`/`AUT`/`PRO` (`KEY` and
`AUT` both map to `SC_AC_AUT`) followed by a `%d` reference, while
`do_change`/`do_unblock` accept only `CHV`; a malformed prefix or a
non-numeric suffix is a usage error. -/
theorem credential_token_grammar :
    (∀ ds : List Char, parse_type_ref_verify ('C' :: 'H' :: 'V' :: ds) =
        (sscanf_d ds).map (fun r => (ScAC.chv, r))) ∧
    (∀ ds : List Char, parse_type_ref_verify ('K' :: 'E' :: 'Y' :: ds) =
        (sscanf_d ds).map (fun r => (ScAC.aut, r))) ∧
    (∀ ds : List Char, parse_type_ref_verify ('A' :: 'U' :: 'T' :: ds) =
        (sscanf_d ds).map (fun r => (ScAC.aut, r))) ∧
    (∀ ds : List Char, parse_type_ref_verify ('P' :: 'R' :: 'O' :: ds) =
        (sscanf_d ds).map (fun r => (ScAC.pro, r))) ∧
    (∀ ds : List Char, parse_type_ref_chv ('C' :: 'H' :: 'V' :: ds) =
        sscanf_d ds) ∧
    (∀ ds : List Char, parse_type_ref_chv ('K' :: 'E' :: 'Y' :: ds) = none) ∧
    (∀ ds : List Char, parse_type_ref_chv ('A' :: 'U' :: 'T' :: ds) = none) ∧
    (∀ ds : List Char, parse_type_ref_chv ('P' :: 'R' :: 'O' :: ds) = none) ∧
    parse_type_ref_verify ('k' :: 'E' :: 'y' :: '7' :: []) =
      some (ScAC.aut, 7) ∧
    parse_type_ref_verify ('X' :: 'X' :: 'X' :: '1' :: []) = none ∧
    parse_type_ref_chv ('C' :: 'H' :: 'V' :: 'a' :: []) = none :=
  ⟨fun _ => by simp [parse_type_ref_verify, lookupType, typeNames,
      strncasecmp0, asciiLower],
   fun _ => by simp [parse_type_ref_verify, lookupType, typeNames,
      strncasecmp0, asciiLower],
   fun _ => by simp [parse_type_ref_verify, lookupType, typeNames,
      strncasecmp0, asciiLower],
   fun _ => by simp [parse_type_ref_verify, lookupType, typeNames,
      strncasecmp0, asciiLower],
   fun _ => by simp [parse_type_ref_chv, strncasecmp0, asciiLower],
   fun _ => by simp [parse_type_ref_chv, strncasecmp0, asciiLower],
   fun _ => by simp [parse_type_ref_chv, strncasecmp0, asciiLower],
   fun _ => by simp [parse_type_ref_chv, strncasecmp0, asciiLower],
   by decide, by decide, by decide⟩

/-- C8 counterexample: `change KEY1 ...` is rejected as an invalid type
even though `verify` accepts the same token — the full
`CHV|KEY|AUT|PRO` grammar does not apply to `do_change`/`do_unblock`. -/
theorem change_key_token_counterexample :
    do_change_parse (('K' :: 'E' :: 'Y' :: '1' :: []) :: []) =
      ChangeOut.usage ∧
    do_unblock_parse (('K' :: 'E' :: 'Y' :: '1' :: []) :: []) =
      UnblockOut.usage ∧
    parse_type_ref_verify ('K' :: 'E' :: 'Y' :: '1' :: []) =
      some (ScAC.aut, 1) := by decide

/-- C1: `unblock CHV2 00:00:00:00:00:00 ""` reaches
`sc_reset_retry_counter` with a present zero-length new PIN
(`&newpin_buf[0]` with length 0 — `Empty`), while
`unblock CHV2 00:00:00:00:00:00` reaches it with a NULL new PIN
(`Absent`); the two calls are distinguishable. -/
theorem do_unblock_empty_vs_absent :
    do_unblock_parse
        [('C' :: 'H' :: 'V' :: '2' :: []),
         ('0' :: '0' :: ':' :: '0' :: '0' :: ':' :: '0' :: '0' :: ':' :: '0' :: '0' :: ':' :: '0' :: '0' :: ':' :: '0' :: '0' :: []),
         ['"']] =
      UnblockOut.call 2 (some [0, 0, 0, 0, 0, 0]) (some []) ∧
    do_unblock_parse
        [('C' :: 'H' :: 'V' :: '2' :: []),
         ('0' :: '0' :: ':' :: '0' :: '0' :: ':' :: '0' :: '0' :: ':' :: '0' :: '0' :: ':' :: '0' :: '0' :: ':' :: '0' :: '0' :: [])] =
      UnblockOut.call 2 (some [0, 0, 0, 0, 0, 0]) none ∧
    UnblockOut.call 2 (some [0, 0, 0, 0, 0, 0]) (some []) ≠
      UnblockOut.call (2 : Int) (some [0, 0, 0, 0, 0, 0]) none := by decide

/-- C10: in `do_change` a parsed value of length 0 — including the
present-but-empty quoted string — is passed to
`sc_change_reference_data` as a NULL pointer with length 0, identical to
an absent argument: `change CHV2 ""` and `change CHV2` issue the same
call, and no call ever carries a present empty value. -/
theorem do_change_empty_eq_absent :
    do_change_parse [('C' :: 'H' :: 'V' :: '2' :: []), ['"']] =
      ChangeOut.call 2 none none ∧
    do_change_parse [('C' :: 'H' :: 'V' :: '2' :: [])] =
      ChangeOut.call 2 none none ∧
    ∀ (args : List (List Char)) (r : Int) (o n : Option (List Nat)),
      do_change_parse args = ChangeOut.call r o n →
        o ≠ some [] ∧ n ≠ some [] := by
  refine ⟨by decide, by decide, ?_⟩
  intro args r o n h
  unfold do_change_parse at h
  repeat' split at h
  all_goals simp_all
  all_goals obtain ⟨h1, h2, h3⟩ := h
  all_goals subst h2
  all_goals subst h3
  all_goals simp_all

/-- Witness for the universally quantified part of
`do_change_empty_eq_absent`, at the concrete call `change CHV2`. -/
theorem do_change_empty_eq_absent_witness :
    (none : Option (List Nat)) ≠ some [] :=
  (do_change_empty_eq_absent.2.2 [('C' :: 'H' :: 'V' :: '2' :: [])] 2
    none none (by decide)).1



/-- The counter of the `ambiguous_match` loop counts exactly the
prefix-matching table entries. -/
theorem amb_fold_count (cmd : List Char) :
    ∀ (table : List Command) (st : Option Command × Nat),
      (table.foldl (ambStep cmd) st).2 = st.2 + matchCount table cmd := by
  intro table
  induction table with
  | nil => intro st; simp [matchCount]
  | cons t rest ih =>
      intro st
      rw [List.foldl_cons, ih (ambStep cmd st t)]
      cases hm : cmdMatch cmd t with
      | false => simp [ambStep, hm, matchCount, List.filter_cons]
      | true =>
          simp [ambStep, hm, matchCount, List.filter_cons]
          omega

/-- With no matching entry, the `last_match` accumulator is returned
unchanged. -/
theorem amb_fold_zero (cmd : List Char) :
    ∀ (table : List Command) (st : Option Command × Nat),
      matchCount table cmd = 0 →
      (table.foldl (ambStep cmd) st).1 = st.1 := by
  intro table
  induction table with
  | nil => intro st _; rfl
  | cons t rest ih =>
      intro st h0
      cases hm : cmdMatch cmd t with
      | false =>
          have hr : matchCount rest cmd = 0 := by
            simp [matchCount, List.filter_cons, hm] at h0 ⊢
            exact h0
          simp [List.foldl_cons, ambStep, hm, ih _ hr]
      | true =>
          exfalso
          simp [matchCount, List.filter_cons, hm] at h0

/-- A matching member of the table forces a positive match count. -/
theorem matchCount_pos_of_mem (cmd : List Char) {table : List Command}
    {t : Command} (ht : t ∈ table) (hm : cmdMatch cmd t = true) :
    0 < matchCount table cmd := by
  have hmem : t ∈ table.filter (cmdMatch cmd) := List.mem_filter.mpr ⟨ht, hm⟩
  exact List.length_pos.mpr (List.ne_nil_of_mem hmem)

/-- With exactly one matching entry, the loop returns that entry. -/
theorem amb_fold_unique (cmd : List Char) :
    ∀ (table : List Command) (st : Option Command × Nat) (t : Command),
      t ∈ table → cmdMatch cmd t = true → matchCount table cmd = 1 →
      (table.foldl (ambStep cmd) st).1 = some t := by
  intro table
  induction table with
  | nil => intro st t ht; exact absurd ht (List.not_mem_nil t)
  | cons u rest ih =>
      intro st t ht hm h1
      cases hu : cmdMatch cmd u with
      | true =>
          have hr : matchCount rest cmd = 0 := by
            have hstep : matchCount (u :: rest) cmd = matchCount rest cmd + 1 := by
              simp [matchCount, List.filter_cons, hu]
            omega
          have hteq : t = u := by
            rcases List.mem_cons.mp ht with h | h
            · exact h
            · exact absurd (matchCount_pos_of_mem cmd h hm) (by omega)
          subst hteq
          simp [List.foldl_cons, ambStep, hu, amb_fold_zero cmd rest _ hr]
      | false =>
          have htr : t ∈ rest := by
            rcases List.mem_cons.mp ht with h | h
            · subst h; rw [hm] at hu; exact absurd hu (by simp)
            · exact h
          have hr : matchCount rest cmd = 1 := by
            simp [matchCount, List.filter_cons, hu] at h1 ⊢
            exact h1
          simp [List.foldl_cons, ambStep, hu, ih _ t htr hm hr]

/-- C4: command dispatch matches the typed name case-insensitively as a
prefix against the command table; zero matches return no command (the
shell then prints the command list), more than one match returns no
command, exactly one match returns it, invoked on the remaining tokens.
Concretely, `c` matches 4 table entries (`cd`, `cat`, `create`, `change`)
and dispatches nothing, while `ca` dispatches `cat`. -/
theorem dispatch_spec :
    (∀ (table : List Command) (cmd : List Char),
      matchCount table cmd = 0 → ambiguous_match table cmd = none) ∧
    (∀ (table : List Command) (cmd : List Char),
      1 < matchCount table cmd → ambiguous_match table cmd = none) ∧
    (∀ (table : List Command) (cmd : List Char) (t : Command),
      t ∈ table → cmdMatch cmd t = true → matchCount table cmd = 1 →
      ambiguous_match table cmd = some t) ∧
    matchCount cmds ('c' :: []) = 4 ∧
    shell_dispatch cmds
        (('c' :: []) :: ('3' :: 'F' :: '0' :: '0' :: []) :: []) = none ∧
    shell_dispatch cmds
        (('c' :: 'a' :: []) :: ('3' :: 'F' :: '0' :: '0' :: []) :: []) =
      some (⟨"cat".data, "print the contents of an EF".data⟩,
        ('3' :: 'F' :: '0' :: '0' :: []) :: []) := by
  refine ⟨?_, ?_, ?_, by decide, by decide, by decide⟩
  · intro table cmd h0
    simp [ambiguous_match, amb_fold_count cmd table (none, 0),
      amb_fold_zero cmd table (none, 0) h0, h0]
  · intro table cmd h2
    simp [ambiguous_match, amb_fold_count cmd table (none, 0), h2]
  · intro table cmd t ht hm h1
    simp [ambiguous_match, amb_fold_count cmd table (none, 0),
      amb_fold_unique cmd table (none, 0) t ht hm h1, h1]

/-- Witness for `dispatch_spec`: no `z` entry exists (no dispatch), and
`ca` uniquely matches the `cat` entry. -/
theorem dispatch_spec_witness :
    ambiguous_match cmds ('z' :: []) = none ∧
    ambiguous_match cmds ('c' :: 'a' :: []) =
      some ⟨"cat".data, "print the contents of an EF".data⟩ :=
  ⟨dispatch_spec.1 cmds ('z' :: []) (by decide),
   dispatch_spec.2.2.1 cmds ('c' :: 'a' :: [])
     ⟨"cat".data, "print the contents of an EF".data⟩ (by decide) (by decide)
     (by decide)⟩

/-- Accumulator lemma for `do_get`'s filename loop. -/
theorem get_name_loop_append :
    ∀ (v : List Nat) (acc : List Char),
      get_name_loop v acc = acc ++ get_name_loop v []
  | [], acc => by simp [get_name_loop]
  | [b0], acc => by simp [get_name_loop]
  | b0 :: b1 :: rest, acc => by
      rw [get_name_loop, get_name_loop]
      rw [get_name_loop_append rest
        (acc ++ hexByte b0 ++ hexByte b1 ++ ['_'])]
      rw [get_name_loop_append rest
        ([] ++ hexByte b0 ++ hexByte b1 ++ ['_'])]
      simp

/-- The filename loop returns a nonempty string on nonempty input. -/
theorem get_name_loop_ne_nil (b : Nat) (rest : List Nat) :
    get_name_loop (b :: rest) [] ≠ [] := by
  cases rest with
  | nil => simp [get_name_loop]
  | cons b1 rest2 =>
      rw [get_name_loop, get_name_loop_append rest2]
      simp

/-- C9 (amended): with no filename argument, `do_get` derives the local
filename from all of the path's 2-byte pairs rendered as `%02X%02X` and
joined by `_`, while `do_put` uses only the first pair. -/
theorem default_filenames_spec (b0 b1 : Nat) (rest : List Nat) (t : PType)
    (aidv : List Nat) :
    do_get_default_filename ⟨t, b0 :: b1 :: rest, aidv⟩ =
      hexByte b0 ++ hexByte b1 ++
        (if rest = [] then []
         else '_' :: do_get_default_filename ⟨t, rest, aidv⟩) ∧
    do_put_default_filename ⟨t, b0 :: b1 :: rest, aidv⟩ =
      hexByte b0 ++ hexByte b1 := by
  constructor
  · unfold do_get_default_filename
    rw [get_name_loop, get_name_loop_append]
    cases rest with
    | nil => simp [get_name_loop, hexByte]
    | cons rb rrest =>
        rw [List.dropLast_append_of_ne_nil _ (get_name_loop_ne_nil rb rrest)]
        simp
  · simp [do_put_default_filename, List.getD]

/-- C9 counterexample: for the resolved two-component path
`3F00/5015`, `do_get` derives `3F00_5015` but `do_put` derives only
`3F00`, so `put` does not use all byte pairs. -/
theorem default_filename_counterexample :
    do_get_default_filename ⟨PType.path, [0x3F, 0x00, 0x50, 0x15], []⟩ =
      "3F00_5015".data ∧
    do_put_default_filename ⟨PType.path, [0x3F, 0x00, 0x50, 0x15], []⟩ =
      "3F00".data ∧
    ("3F00".data : List Char) ≠ "3F00_5015".data := by decide



/-- Re-selection discipline of the `do_ls` loop: with a nonzero current
path and the invariant that the card has the current path selected, every
normally-terminating pass leaves the current path selected. -/
theorem lsLoop_preserves (card : Card) :
    ∀ (buf : List Nat) (st : ShellState),
      scpNonzero st.current_path = true →
      st.selected = some st.current_path →
      ∀ sel2, lsLoop card st buf = some sel2 → sel2 = some st.current_path
  | [], st, hnz, hsel, sel2, h => by
      simp [lsLoop] at h
      rw [← h, hsel]
  | [b], st, hnz, hsel, sel2, h => by
      simp [lsLoop] at h
      rw [← h, hsel]
  | b0 :: b1 :: rest, st, hnz, hsel, sel2, h => by
      rw [lsLoop] at h
      simp only [select_current_path_or_die, hnz, if_true] at h
      cases hcp : card.selectFile st.current_path with
      | none => rw [hcp] at h; cases h
      | some f =>
          rw [hcp] at h
          exact lsLoop_preserves card rest { st with selected := some st.current_path }
            hnz rfl sel2 h

/-- C2 (amended): `do_ls` never changes the shell's current path or
cached file, and — provided the current path is nonzero (always the case
except after starting with an empty `-m` path, which selects nothing) and
the card had the current path selected — every return to the shell leaves
the current path selected on the card. -/
theorem do_ls_frame (card : Card) (args : List (List Char)) (st : ShellState) :
    (∀ (r : Int) (st' : ShellState), do_ls card args st = LsOut.ret r st' →
      st'.current_path = st.current_path ∧ st'.current_file = st.current_file) ∧
    (scpNonzero st.current_path = true → st.selected = some st.current_path →
      ∀ (r : Int) (st' : ShellState), do_ls card args st = LsOut.ret r st' →
        st'.selected = some st.current_path) := by
  constructor
  · intro r st' h
    unfold do_ls at h
    split at h
    · cases h; exact ⟨rfl, rfl⟩
    · split at h
      · cases h; exact ⟨rfl, rfl⟩
      · split at h
        · cases h
        · cases h; exact ⟨rfl, rfl⟩
  · intro hnz hsel r st' h
    unfold do_ls at h
    split at h
    · cases h; exact hsel
    · split at h
      · cases h; exact hsel
      · split at h
        · cases h
        · cases h
          exact lsLoop_preserves card _ st hnz hsel _ (by assumption)

/-- Witness for `do_ls_frame` at a concrete card and the root current
path. -/
theorem do_ls_frame_witness :
    (ShellState.mk root3F00 none (some root3F00)).selected = some root3F00 :=
  (do_ls_frame
      ⟨some [0x2F, 0x00],
       fun _ => some ⟨0, FileType.workingEF, EfStruct.transparent, 0, 0⟩,
       fun _ _ => 0, false⟩
      [] ⟨root3F00, none, some root3F00⟩).2 (by decide) rfl 0
    ⟨root3F00, none, some root3F00⟩ (by decide)

/-- C2 counterexample: starting from the all-zero current path (the
empty `-m` start path: nothing selected), `do_ls` returns to the shell
with the last listed child still selected — the transient selection is
not undone, because `select_current_path_or_die` skips an all-zero
path. -/
theorem do_ls_empty_path_counterexample :
    do_ls
        ⟨some [0x2F, 0x00],
         fun _ => some ⟨0, FileType.workingEF, EfStruct.transparent, 0, 0⟩,
         fun _ _ => 0, false⟩
        [] ⟨⟨PType.fileId, [], []⟩, none, none⟩ =
      LsOut.ret 0
        ⟨⟨PType.fileId, [], []⟩, none, some ⟨PType.fileId, [0x2F, 0x00], []⟩⟩ ∧
    (none : Option ScPath) ≠ some ⟨PType.fileId, [0x2F, 0x00], []⟩ := by decide

/-- C3: `cd ..` fails when fewer than 4 path bytes remain; from a DF-name
(AppId) current path of at least 4 bytes it re-selects the root `3F00`;
otherwise it truncates the trailing 2-byte component; in the select cases
it updates `current_path` and `current_file` exactly on success. -/
theorem do_cd_up_spec (card : Card) (st : ShellState) :
    (st.current_path.value.length < 4 →
      do_cd card [('.' :: '.' :: [])] st = CdOut.alreadyAtRoot st) ∧
    (4 ≤ st.current_path.value.length →
      st.current_path.ptype = PType.dfName →
      (card.selectFile root3F00 = none →
        do_cd card [('.' :: '.' :: [])] st = CdOut.selectErr st) ∧
      (∀ f, card.selectFile root3F00 = some f →
        do_cd card [('.' :: '.' :: [])] st =
          CdOut.ok ⟨root3F00, some f, some root3F00⟩)) ∧
    (4 ≤ st.current_path.value.length →
      st.current_path.ptype ≠ PType.dfName →
      (card.selectFile
          { st.current_path with
            value := st.current_path.value.take
              (st.current_path.value.length - 2) } = none →
        do_cd card [('.' :: '.' :: [])] st = CdOut.selectErr st) ∧
      (∀ f, card.selectFile
          { st.current_path with
            value := st.current_path.value.take
              (st.current_path.value.length - 2) } = some f →
        do_cd card [('.' :: '.' :: [])] st =
          CdOut.ok
            ⟨{ st.current_path with
                 value := st.current_path.value.take
                   (st.current_path.value.length - 2) }, some f,
              some { st.current_path with
                       value := st.current_path.value.take
                         (st.current_path.value.length - 2) }⟩)) := by
  refine ⟨fun h4 => ?_, fun h4 hdf => ⟨fun hsf => ?_, fun f hsf => ?_⟩,
          fun h4 hdf => ⟨fun hsf => ?_, fun f hsf => ?_⟩⟩
  · simp [do_cd, h4]
  · simp [do_cd, Nat.not_lt.mpr h4, hdf, hsf]
  · simp [do_cd, Nat.not_lt.mpr h4, hdf, hsf]
  · simp [do_cd, Nat.not_lt.mpr h4, hdf, hsf]
  · simp [do_cd, Nat.not_lt.mpr h4, hdf, hsf]

/-- Witness for `do_cd_up_spec`: ascending from the 2-byte root fails
(already in MF), and ascending from `3F00/5015` truncates to `3F00` and
succeeds on a card that accepts the selection. -/
theorem do_cd_up_spec_witness :
    do_cd ⟨none, fun _ => some ⟨0, FileType.df, EfStruct.unknown, 0, 0⟩,
           fun _ _ => 0, false⟩
        [('.' :: '.' :: [])] ⟨root3F00, none, none⟩ =
      CdOut.alreadyAtRoot ⟨root3F00, none, none⟩ ∧
    do_cd ⟨none, fun _ => some ⟨0, FileType.df, EfStruct.unknown, 0, 0⟩,
           fun _ _ => 0, false⟩
        [('.' :: '.' :: [])]
        ⟨⟨PType.path, [0x3F, 0x00, 0x50, 0x15], []⟩, none, none⟩ =
      CdOut.ok
        ⟨{ ScPath.mk PType.path [0x3F, 0x00, 0x50, 0x15] [] with
             value := [0x3F, 0x00, 0x50, 0x15].take (4 - 2) },
         some ⟨0, FileType.df, EfStruct.unknown, 0, 0⟩,
         some { ScPath.mk PType.path [0x3F, 0x00, 0x50, 0x15] [] with
                  value := [0x3F, 0x00, 0x50, 0x15].take (4 - 2) }⟩ :=
  ⟨(do_cd_up_spec _ ⟨root3F00, none, none⟩).1 (by decide),
   ((do_cd_up_spec _ _).2.2 (by decide) (by decide)).2
     ⟨0, FileType.df, EfStruct.unknown, 0, 0⟩ rfl⟩



/-- In the branch of the read loop that continues, the card returned at
least one byte. -/
theorem rb_step_ge_one (card : Card) (c : Nat) (hc : 1 ≤ c) (r : Int)
    (h2 : ¬(r.toNat ≠ c ∧ card.belpic = false))
    (h3 : ¬(r.toNat = 0 ∧ card.belpic = true)) : 1 ≤ r.toNat := by
  cases hb : card.belpic
  · have heq : r.toNat = c := by
      by_contra hne
      exact h2 ⟨hne, hb⟩
    omega
  · have hne : r.toNat ≠ 0 := fun h0 => h3 ⟨h0, hb⟩
    omega

/-- Every request the read loop issues is at most the buffer size. -/
theorem rpb_req_bound (card : Card) (b1 : Nat) :
    ∀ (count idx : Nat) (e : RBCall), e ∈ (rpb_loop card b1 idx count).1 →
      e.req ≤ b1 + 1 := by
  intro count
  induction count using Nat.strong_induction_on with
  | _ count ih =>
      match count with
      | 0 => intro idx e he; simp [rpb_loop] at he
      | cnt + 1 =>
          intro idx e he
          simp only [rpb_loop] at he
          split at he
          · simp at he
            simp [he]
          · split at he
            · simp at he
              simp [he]
            · split at he
              · simp at he
                simp [he]
              · rename_i hr h2 h3
                rcases List.mem_cons.mp he with hhead | htail
                · simp [hhead]
                · have hge1 : 1 ≤ (card.readBinary idx
                      (min (cnt + 1) (b1 + 1))).toNat :=
                    rb_step_ge_one card _ (by omega) _ h2 h3
                  exact ih (cnt + 1 - (card.readBinary idx
                      (min (cnt + 1) (b1 + 1))).toNat) (by omega) _ e htail

/-- On a non-BELPIC card, a successful read loop received exactly the
remaining count: every response equalled its request. -/
theorem rpb_exact_total (card : Card) (hbel : card.belpic = false)
    (b1 : Nat) :
    ∀ (count idx t : Nat), (rpb_loop card b1 idx count).2 = RBOut.ok t →
      t = idx + count := by
  intro count
  induction count using Nat.strong_induction_on with
  | _ count ih =>
      match count with
      | 0 =>
          intro idx t h
          simp [rpb_loop] at h
          omega
      | cnt + 1 =>
          intro idx t h
          simp only [rpb_loop] at h
          split at h
          · simp at h
          · split at h
            · simp at h
            · split at h
              · rename_i hr h2 h3
                exact absurd h3.2 (by simp [hbel])
              · rename_i hr h2 h3
                have heq : (card.readBinary idx
                    (min (cnt + 1) (b1 + 1))).toNat = min (cnt + 1) (b1 + 1) := by
                  by_contra hne
                  exact h2 ⟨hne, hbel⟩
                have hrec := ih (cnt + 1 - (card.readBinary idx
                    (min (cnt + 1) (b1 + 1))).toNat)
                  (by
                    have : 1 ≤ min (cnt + 1) (b1 + 1) :=
                      Nat.le_min.mpr ⟨by omega, by omega⟩
                    omega)
                  (idx + (card.readBinary idx (min (cnt + 1) (b1 + 1))).toNat)
                  t h
                have hle : min (cnt + 1) (b1 + 1) ≤ cnt + 1 := Nat.min_le_left _ _
                omega

/-- On a BELPIC card, the read loop never raises the short-read error:
any short response is accepted. -/
theorem rpb_belpic_no_short (card : Card) (hbel : card.belpic = true)
    (b1 : Nat) :
    ∀ (count idx : Nat), (rpb_loop card b1 idx count).2 ≠ RBOut.shortErr := by
  intro count
  induction count using Nat.strong_induction_on with
  | _ count ih =>
      match count with
      | 0 => intro idx h; simp [rpb_loop] at h
      | cnt + 1 =>
          intro idx h
          simp only [rpb_loop] at h
          split at h
          · simp at h
          · split at h
            · rename_i hr h2
              exact absurd h2.2 (by simp [hbel])
            · split at h
              · simp at h
              · rename_i hr h2 h3
                have hge1 : 1 ≤ (card.readBinary idx
                    (min (cnt + 1) (b1 + 1))).toNat :=
                  rb_step_ge_one card _
                    (Nat.le_min.mpr ⟨by omega, by omega⟩) _ h2 h3
                exact ih (cnt + 1 - (card.readBinary idx
                    (min (cnt + 1) (b1 + 1))).toNat) (by omega) _ h

/-- When the card never over-returns (response at most the request), the
loop's total never exceeds the declared remaining count. -/
theorem rpb_total_le (card : Card)
    (hwf : ∀ i c, card.readBinary i c ≤ (c : Int)) (b1 : Nat) :
    ∀ (count idx t : Nat), (rpb_loop card b1 idx count).2 = RBOut.ok t →
      t ≤ idx + count := by
  intro count
  induction count using Nat.strong_induction_on with
  | _ count ih =>
      match count with
      | 0 =>
          intro idx t h
          simp [rpb_loop] at h
          omega
      | cnt + 1 =>
          intro idx t h
          simp only [rpb_loop] at h
          split at h
          · simp at h
          · split at h
            · simp at h
            · split at h
              · simp at h
                omega
              · rename_i hr h2 h3
                have hge1 : 1 ≤ (card.readBinary idx
                    (min (cnt + 1) (b1 + 1))).toNat :=
                  rb_step_ge_one card _
                    (Nat.le_min.mpr ⟨by omega, by omega⟩) _ h2 h3
                have hwf1 := hwf idx (min (cnt + 1) (b1 + 1))
                have hle : (card.readBinary idx
                    (min (cnt + 1) (b1 + 1))).toNat ≤ min (cnt + 1) (b1 + 1) := by
                  omega
                have hminle : min (cnt + 1) (b1 + 1) ≤ cnt + 1 :=
                  Nat.min_le_left _ _
                have hrec := ih (cnt + 1 - (card.readBinary idx
                    (min (cnt + 1) (b1 + 1))).toNat) (by omega)
                  (idx + (card.readBinary idx (min (cnt + 1) (b1 + 1))).toNat)
                  t h
                omega

/-- C5 (amended): the chunked transparent read requests at most the
fixed buffer size per call; on a non-BELPIC card a successful loop
received exactly the declared size (any short response is an error); on a
BELPIC card a short response is never an error (a zero-length one is the
clean end of data); and for any card that never over-returns, the total
received never exceeds the declared size. -/
theorem read_loop_spec (card : Card) (file : ScFile) :
    (∀ e ∈ (read_and_util_print_binary_file card file).1, e.req ≤ 128) ∧
    (card.belpic = false → ∀ t,
      (read_and_util_print_binary_file card file).2 = RBOut.ok t →
      t = file.size) ∧
    (card.belpic = true →
      (read_and_util_print_binary_file card file).2 ≠ RBOut.shortErr) ∧
    ((∀ i c, card.readBinary i c ≤ (c : Int)) → ∀ t,
      (read_and_util_print_binary_file card file).2 = RBOut.ok t →
      t ≤ file.size) := by
  refine ⟨fun e he => rpb_req_bound card 127 file.size 0 e he,
          fun hbel t h => ?_,
          fun hbel => rpb_belpic_no_short card hbel 127 file.size 0,
          fun hwf t h => ?_⟩
  · have := rpb_exact_total card hbel 127 file.size 0 t h
    omega
  · have := rpb_total_le card hwf 127 file.size 0 t h
    omega

/-- Witness for `read_loop_spec`: a 3-byte file on a card that delivers
exactly what is asked. -/
theorem read_loop_spec_witness :
    (3 : Nat) = 3 ∧ (3 : Nat) ≤ 3 :=
  ⟨(read_loop_spec ⟨none, fun _ => none, fun _ c => (c : Int), false⟩
      ⟨0, FileType.workingEF, EfStruct.transparent, 3, 0⟩).2.1 rfl 3
    (by simp [read_and_util_print_binary_file, rpb_loop]),
   (read_loop_spec ⟨none, fun _ => none, fun _ c => (c : Int), false⟩
      ⟨0, FileType.workingEF, EfStruct.transparent, 3, 0⟩).2.2.2
    (fun i c => le_refl _) 3
    (by simp [read_and_util_print_binary_file, rpb_loop])⟩

/-- C5 counterexample: on a BELPIC card a response of 5 bytes to a
10-byte request — shorter than requested and not zero-length — is not
treated as an error: the loop continues and ends successfully. -/
theorem read_loop_belpic_short_counterexample :
    rpb_loop ⟨none, fun _ => none, fun _ _ => 5, true⟩ 127 0 10 =
      ([⟨0, 10, 5⟩, ⟨5, 5, 5⟩], RBOut.ok 10) ∧
    (5 : Int) ≠ 10 ∧
    RBOut.ok 10 ≠ RBOut.shortErr ∧ RBOut.ok 10 ≠ RBOut.err := by
  refine ⟨?_, by decide, by decide, by decide⟩
  simp [rpb_loop, Int.toNat_ofNat]

end OpenSCExplorer
